import Mathlib

/-!
Verification development for the tool-aggregation trading agent.

The embedding covers the three source modules:
* `sanitize-tools.ts` — the recursive JSON-schema sanitizer (`sanitizeSchema`)
  and the per-tool wrapper (`sanitizeTools`);
* `config-strategy.ts` — the bounded decision loop (`runConfigStrategy`);
* `index.ts` — the MCP aggregator: credential gating (`connectMcpServers`),
  tool merging (`Object.assign` over connected servers) and the
  `try/finally` teardown of `runConfigMode`.

JavaScript objects are embedded as insertion-ordered association lists,
arrays as lists, and the effectful parts (model invocation, client
connection and close) as explicitly injected oracles, so every definition
is executable.
-/

/-! ## JSON values

A JSON value is a leaf (`null`, boolean, number, string), a mapping node
(`obj`, a plain JS object with ordered keys), or a sequence node (`arr`).
`Fields` and `Items` unfold the nested lists so that all recursion is
structural.
-/

mutual

inductive Json where
  | null : Json
  | bool (b : Bool) : Json
  | num (n : Int) : Json
  | str (s : String) : Json
  | obj (fields : Fields) : Json
  | arr (items : Items) : Json

inductive Fields where
  | nil : Fields
  | cons (key : String) (value : Json) (rest : Fields) : Fields

inductive Items where
  | nil : Items
  | cons (value : Json) (rest : Items) : Items

end

/-- `Array.isArray` discriminant. -/
def isArr : Json → Bool
  | .arr _ => true
  | _ => false

/-! ## Schema sanitizer (`src/sanitize-tools.ts`) -/

/-- The `STRIP_KEYS` set of `sanitize-tools.ts`: JSON-Schema keywords that
some providers reject. -/
def STRIP_KEYS : List String :=
  ["minLength", "maxLength", "minItems", "maxItems", "exclusiveMinimum",
   "exclusiveMaximum", "pattern", "format", "default", "$schema"]

mutual

/-- `sanitizeSchema` of `sanitize-tools.ts`: walks the entries of a mapping
node, drops entries whose key is in `STRIP_KEYS`, and dispatches on the
value exactly as the source does (`sanitizeValue`). -/
def sanitizeSchema : Fields → Fields
  | .nil => .nil
  | .cons key value rest =>
    if STRIP_KEYS.contains key then sanitizeSchema rest
    else .cons key (sanitizeValue value) (sanitizeSchema rest)

/-- The per-value dispatch inside `sanitizeSchema`: a plain object is
recursively sanitized, an array is mapped element-wise, every other value
is copied verbatim. -/
def sanitizeValue : Json → Json
  | .obj fields => .obj (sanitizeSchema fields)
  | .arr items => .arr (sanitizeItems items)
  | v => v

/-- The `value.map(...)` over an array value. -/
def sanitizeItems : Items → Items
  | .nil => .nil
  | .cons item rest => .cons (sanitizeElem item) (sanitizeItems rest)

/-- The lambda inside `value.map`: a plain-object element is sanitized,
every other element (including a nested array) passes through unchanged. -/
def sanitizeElem : Json → Json
  | .obj fields => .obj (sanitizeSchema fields)
  | v => v

end

mutual

/-- `true` iff some mapping node of the field list, at any depth, has a
field named `k`. -/
def fieldsMention (k : String) : Fields → Bool
  | .nil => false
  | .cons key v rest => key == k || valueMention k v || fieldsMention k rest

/-- `true` iff some mapping node inside the value, at any depth, has a
field named `k`. -/
def valueMention (k : String) : Json → Bool
  | .obj fields => fieldsMention k fields
  | .arr items => itemsMention k items
  | _ => false

/-- `true` iff some mapping node inside one of the elements has a field
named `k`. -/
def itemsMention (k : String) : Items → Bool
  | .nil => false
  | .cons v rest => valueMention k v || itemsMention k rest

end

mutual

/-- No field key of any mapping node, at any depth, lies in `STRIP_KEYS`. -/
def fieldsClean : Fields → Bool
  | .nil => true
  | .cons key v rest => !STRIP_KEYS.contains key && valueClean v && fieldsClean rest

/-- No mapping node inside the value has a denylisted key. -/
def valueClean : Json → Bool
  | .obj fields => fieldsClean fields
  | .arr items => itemsClean items
  | _ => true

/-- No mapping node inside any element has a denylisted key. -/
def itemsClean : Items → Bool
  | .nil => true
  | .cons v rest => valueClean v && itemsClean rest

end

mutual

/-- No sequence node of the tree has an element that is itself a
sequence. -/
def fieldsNoSeqInSeq : Fields → Bool
  | .nil => true
  | .cons _ v rest => valueNoSeqInSeq v && fieldsNoSeqInSeq rest

/-- No sequence node inside the value has an element that is itself a
sequence. -/
def valueNoSeqInSeq : Json → Bool
  | .obj fields => fieldsNoSeqInSeq fields
  | .arr items => itemsNoSeqInSeq items
  | _ => true

/-- The elements of a sequence node: none is itself a sequence, and none
contains a sequence-in-sequence deeper down. -/
def itemsNoSeqInSeq : Items → Bool
  | .nil => true
  | .cons v rest => !isArr v && valueNoSeqInSeq v && itemsNoSeqInSeq rest

end

/-! ## Tools and `sanitizeTools` (`src/sanitize-tools.ts`)

A `Tool` carries the result of resolving its parameter schema
(`asSchema(tool.inputSchema).jsonSchema`, an external-library step injected
here as data: `none` models a falsy result) and an opaque handler identity
`hid` standing for every other field preserved by the `...tool` spread. -/

structure Tool where
  raw : Option Json
  hid : Nat

/-- The guard of `sanitizeTools`: the resolved schema survives
`!raw || typeof raw !== "object"` only when it is a JS object, i.e. a
mapping or (since `typeof` of an array is `"object"`) a sequence;
`null` is falsy and every other leaf has a non-object `typeof`. -/
def resolvedStructural : Option Json → Bool
  | some (.obj _) => true
  | some (.arr _) => true
  | _ => false

/-- `Object.entries` of a JS array: index-keyed entries. -/
def arrayEntriesFrom : Nat → Items → Fields
  | _, .nil => .nil
  | i, .cons v rest => .cons (toString i) v (arrayEntriesFrom (i + 1) rest)

/-- Per-tool body of the `sanitizeTools` loop: a tool whose resolved schema
is not a JS object is passed through untouched; otherwise the schema is
replaced by its sanitized form (an array raw schema is traversed via its
`Object.entries`). -/
def sanitizeTool (t : Tool) : Tool :=
  match t.raw with
  | some (.obj fields) => { t with raw := some (.obj (sanitizeSchema fields)) }
  | some (.arr items) => { t with raw := some (.obj (sanitizeSchema (arrayEntriesFrom 0 items))) }
  | _ => t

/-- `sanitizeTools`: rebuilds the tool set entry by entry, keeping every
name. -/
def sanitizeTools (tools : List (String × Tool)) : List (String × Tool) :=
  tools.map (fun nt => (nt.1, sanitizeTool nt.2))

/-! ## Decision loop (`src/config-strategy.ts`)

The model backend (`generateText`) is injected as a pure stub from the
current conversation to an invocation result. -/

inductive Role where
  | user : Role
  | assistant : Role

structure Message where
  role : Role
  content : String

structure ToolCall where
  toolName : String
  input : String

structure Step where
  toolCalls : List ToolCall

structure GenResult where
  text : String
  steps : List Step

def MAX_ATTEMPTS : Nat := 3

def SUBMIT_TOOL : String := "submit_decision"

/-- `hasSubmitDecision` of `config-strategy.ts`. -/
def hasSubmitDecision (steps : List Step) : Bool :=
  steps.any fun step => step.toolCalls.any fun c => c.toolName == SUBMIT_TOOL

/-- The message seeding the conversation in `runConfigStrategy`. -/
def seedMessage : Message :=
  ⟨.user, "Analyze the market and make your trading decision for this interval."⟩

/-- The corrective user message pushed after a failed non-final attempt. -/
def retryMessage : Message :=
  ⟨.user, "You did not call submit_decision. You MUST call submit_decision with your trades to complete your turn. Analyze the market and submit now."⟩

/-- Observables of one `runConfigStrategy` run: the final conversation, the
accumulated counters, the number of model invocations performed, and
whether the loop ended through the submit break (`submitted = false`
corresponds to the exhaustion warning). The source returns `void`; these
are its logged/observable effects. -/
structure RunOutcome where
  messages : List Message
  totalSteps : Nat
  totalToolCalls : Nat
  invocations : Nat
  submitted : Bool

/-- The `for (let attempt = 1; attempt <= MAX_ATTEMPTS; attempt++)` loop of
`runConfigStrategy`: invoke the stub, accumulate counters, break on a
submit call, otherwise append the assistant echo and the corrective user
message and retry while below the ceiling. -/
def runAttempt (stub : List Message → GenResult) (attempt : Nat)
    (messages : List Message) (totalSteps totalToolCalls invocations : Nat) :
    RunOutcome :=
  let result := stub messages
  let totalSteps' := totalSteps + result.steps.length
  let totalToolCalls' := totalToolCalls + (result.steps.map (fun s => s.toolCalls.length)).sum
  let invocations' := invocations + 1
  if hasSubmitDecision result.steps then
    ⟨messages, totalSteps', totalToolCalls', invocations', true⟩
  else if _h : attempt < MAX_ATTEMPTS then
    runAttempt stub (attempt + 1)
      (messages ++ [⟨.assistant, result.text⟩, retryMessage])
      totalSteps' totalToolCalls' invocations'
  else
    ⟨messages, totalSteps', totalToolCalls', invocations', false⟩
termination_by MAX_ATTEMPTS - attempt

/-- `runConfigStrategy`: seed the conversation and run the attempt loop
from attempt 1 with zeroed counters. -/
def runConfigStrategy (stub : List Message → GenResult) : RunOutcome :=
  runAttempt stub 1 [seedMessage] 0 0 0

/-! ## Aggregator (`src/index.ts`)

The process environment is an injected map `String → Option String`;
opening an MCP client and fetching its tools is an injected oracle
`connect : String → List (String × Tool)` keyed by server name, since the
transport I/O is external. -/

/-- JS truthiness of `process.env[v]`: an unset variable is `undefined`
(falsy) and the empty string is also falsy. -/
def envTruthy (env : String → Option String) (v : String) : Bool :=
  match env v with
  | none => false
  | some s => !(s == "")

/-- The transport descriptor of a provider (`McpTransport` in
`index.ts`). -/
inductive McpTransport where
  | stdio (command : String) (args : List String) (env : List (String × String)) : McpTransport
  | sse (url : String) (params headers : List (String × String)) : McpTransport
  | http (url : String) (params headers : List (String × String)) : McpTransport

/-- `McpServerConfig` of `index.ts`: `requires` is `none` when the field is
absent (falsy in the `if (server.requires)` guard). -/
structure McpServerConfig where
  requires : Option (List String)
  transport : McpTransport

/-- `ConnectedServer` of `index.ts`, with the client handle identified by
the server name. -/
structure ConnectedServer where
  name : String
  tools : List (String × Tool)

/-- `connectMcpServers`: for each descriptor, skip it when `requires` is
present and some required variable is falsy in the environment; otherwise
attempt the connection and record the tools fetched at connect time.
Returns the connected servers together with the names for which a
connection was attempted, both in iteration order. -/
def connectMcpServers (env : String → Option String)
    (connect : String → List (String × Tool)) :
    List (String × McpServerConfig) → List ConnectedServer × List String
  | [] => ([], [])
  | (name, server) :: rest =>
    let skip :=
      match server.requires with
      | some reqs => !(reqs.filter (fun v => !envTruthy env v)).isEmpty
      | none => false
    if skip then connectMcpServers env connect rest
    else
      (⟨name, connect name⟩ :: (connectMcpServers env connect rest).1,
       name :: (connectMcpServers env connect rest).2)

/-- Updating one key of a JS object: an existing key keeps its position and
gets the new value, a new key is appended. -/
def insertEntry (m : List (String × Tool)) (k : String) (v : Tool) :
    List (String × Tool) :=
  if m.any (fun p => p.1 == k) then
    m.map (fun p => if p.1 == k then (k, v) else p)
  else m ++ [(k, v)]

/-- `Object.assign(target, source)`: copy the entries of `source` into
`target` in order. -/
def objectAssign (target source : List (String × Tool)) :
    List (String × Tool) :=
  source.foldl (fun acc kv => insertEntry acc kv.1 kv.2) target

/-- The merge loop of `runConfigMode`: starting from an empty `rawTools`
object, `Object.assign` each connected server's tools in connection
order. -/
def mergeServerTools (servers : List ConnectedServer) : List (String × Tool) :=
  servers.foldl (fun acc s => objectAssign acc s.tools) []

/-- Property lookup on a JS object. -/
def lookupTool (m : List (String × Tool)) (k : String) : Option Tool :=
  match m.find? (fun p => p.1 == k) with
  | some p => some p.2
  | none => none

/-! ## Teardown (`src/index.ts`, `runConfigMode`)

The body of the `try` block (the strategy run) is injected as an outcome
value, and `client.close()` as a per-server success predicate. -/

/-- The `finally` loop `for (const server of servers) await
server.client.close()`: closes are attempted in order; a close that throws
aborts the loop. Returns the names whose close was invoked (in order) and
the completion of the loop (`error s` when closing `s` threw). -/
def closeServers (closeOk : String → Bool) :
    List String → List String × Except String Unit
  | [] => ([], .ok ())
  | s :: rest =>
    if closeOk s then
      (s :: (closeServers closeOk rest).1, (closeServers closeOk rest).2)
    else ([s], .error s)

/-- The `try/finally` of `runConfigMode` after the servers are connected:
the body runs to its outcome, then the `finally` close loop runs; per JS
semantics an abrupt completion of the `finally` replaces the body's
completion. Returns the list of close invocations and the overall
completion. -/
def runConfigMode (servers : List String) (body : Except String Unit)
    (closeOk : String → Bool) : List String × Except String Unit :=
  ((closeServers closeOk servers).1,
    match (closeServers closeOk servers).2 with
    | .ok _ => body
    | .error e => .error e)

/-! ## Concrete fixtures used by counterexamples and witnesses -/

/-- A schema with a denylisted key inside a mapping nested in a
sequence-within-a-sequence. -/
def nestedArraySchema : Fields :=
  .cons "examples"
    (.arr (.cons (.arr (.cons (.obj (.cons "default" .null .nil)) .nil)) .nil))
    .nil

/-- A flat schema with one denylisted key and no nested sequences. -/
def boundedSchema : Fields :=
  .cons "type" (.str "object") (.cons "minLength" (.num 1) .nil)

/-- A clean nested schema: no denylisted key anywhere. -/
def cleanSchema : Fields :=
  .cons "type" (.str "object")
    (.cons "properties"
      (.obj (.cons "qty" (.obj (.cons "type" (.str "number") .nil)) .nil))
      .nil)

/-- A model stub that answers with text only and never calls a tool. -/
def silentStub : List Message → GenResult := fun _ => ⟨"thinking", []⟩

/-- A model stub that calls the submission tool in its first step. -/
def submitStub : List Message → GenResult :=
  fun _ => ⟨"done", [⟨[⟨SUBMIT_TOOL, "sell"⟩]⟩]⟩

/-- A tool whose schema resolution yields nothing usable. -/
def unresolvedTool : Tool := ⟨none, 7⟩

/-- Two tools distinguishable by handler identity. -/
def toolA : Tool := ⟨some (.obj .nil), 1⟩

def toolB : Tool := ⟨some (.obj .nil), 2⟩

/-- A provider descriptor requiring the environment variable K. -/
def gatedConfig : McpServerConfig := ⟨some ["K"], .stdio "run-server" [] []⟩

/-- A connection oracle exposing no tools. -/
def noTools : String → List (String × Tool) := fun _ => []

/-- An environment where K is set to the empty string and nothing else is
set. -/
def emptyKEnv : String → Option String :=
  fun v => if v == "K" then some "" else none

/-! ## Theorems: schema sanitizer -/

mutual

/-- Clean field lists are fixed points of `sanitizeSchema`. -/
theorem sanitizeSchema_clean_id : (f : Fields) → fieldsClean f = true → sanitizeSchema f = f
  | .nil, _ => rfl
  | .cons key v rest, h => by
    simp only [fieldsClean, Bool.and_eq_true, Bool.not_eq_true'] at h
    have hmem : key ∉ STRIP_KEYS := by simpa using h.1.1
    have ih1 := sanitizeValue_clean_id v h.1.2
    have ih2 := sanitizeSchema_clean_id rest h.2
    simp [sanitizeSchema, hmem, ih1, ih2]

/-- Clean values are fixed points of `sanitizeValue`. -/
theorem sanitizeValue_clean_id : (v : Json) → valueClean v = true → sanitizeValue v = v
  | .null, _ => rfl
  | .bool _, _ => rfl
  | .num _, _ => rfl
  | .str _, _ => rfl
  | .obj f, h => by
    have ih := sanitizeSchema_clean_id f (by simpa [valueClean] using h)
    simp [sanitizeValue, ih]
  | .arr i, h => by
    have ih := sanitizeItems_clean_id i (by simpa [valueClean] using h)
    simp [sanitizeValue, ih]

/-- Clean element lists are fixed points of `sanitizeItems`. -/
theorem sanitizeItems_clean_id : (i : Items) → itemsClean i = true → sanitizeItems i = i
  | .nil, _ => rfl
  | .cons v rest, h => by
    simp only [itemsClean, Bool.and_eq_true] at h
    have ih2 := sanitizeItems_clean_id rest h.2
    cases v with
    | obj f =>
      have ih1 := sanitizeSchema_clean_id f (by simpa [valueClean] using h.1)
      simp [sanitizeItems, sanitizeElem, ih1, ih2]
    | null => simp [sanitizeItems, sanitizeElem, ih2]
    | bool b => simp [sanitizeItems, sanitizeElem, ih2]
    | num n => simp [sanitizeItems, sanitizeElem, ih2]
    | str s => simp [sanitizeItems, sanitizeElem, ih2]
    | arr j => simp [sanitizeItems, sanitizeElem, ih2]

end

mutual

/-- `sanitizeSchema` is idempotent on field lists. -/
theorem sanitizeSchema_idem_aux : (f : Fields) → sanitizeSchema (sanitizeSchema f) = sanitizeSchema f
  | .nil => rfl
  | .cons key v rest => by
    have ih2 := sanitizeSchema_idem_aux rest
    by_cases hk : key ∈ STRIP_KEYS
    · simp [sanitizeSchema, hk, ih2]
    · have ih1 := sanitizeValue_idem_aux v
      simp [sanitizeSchema, hk, ih1, ih2]

/-- `sanitizeValue` is idempotent. -/
theorem sanitizeValue_idem_aux : (v : Json) → sanitizeValue (sanitizeValue v) = sanitizeValue v
  | .null => rfl
  | .bool _ => rfl
  | .num _ => rfl
  | .str _ => rfl
  | .obj f => by simp [sanitizeValue, sanitizeSchema_idem_aux f]
  | .arr i => by simp [sanitizeValue, sanitizeItems_idem_aux i]

/-- `sanitizeItems` is idempotent. -/
theorem sanitizeItems_idem_aux : (i : Items) → sanitizeItems (sanitizeItems i) = sanitizeItems i
  | .nil => rfl
  | .cons v rest => by
    have ih2 := sanitizeItems_idem_aux rest
    cases v with
    | obj f => simp [sanitizeItems, sanitizeElem, sanitizeSchema_idem_aux f, ih2]
    | null => simp [sanitizeItems, sanitizeElem, ih2]
    | bool b => simp [sanitizeItems, sanitizeElem, ih2]
    | num n => simp [sanitizeItems, sanitizeElem, ih2]
    | str s => simp [sanitizeItems, sanitizeElem, ih2]
    | arr j => simp [sanitizeItems, sanitizeElem, ih2]

end

mutual

/-- After `sanitizeSchema`, a denylisted key is mentioned by no mapping
node of a field list free of sequence-in-sequence nesting. -/
theorem fieldsMention_sanitize_aux (k : String) (hk : k ∈ STRIP_KEYS) :
    (f : Fields) → fieldsNoSeqInSeq f = true →
      fieldsMention k (sanitizeSchema f) = false
  | .nil, _ => rfl
  | .cons key v rest, h => by
    simp only [fieldsNoSeqInSeq, Bool.and_eq_true] at h
    have ih2 := fieldsMention_sanitize_aux k hk rest h.2
    by_cases hkey : key ∈ STRIP_KEYS
    · simp [sanitizeSchema, hkey, ih2]
    · have ih1 := valueMention_sanitize_aux k hk v h.1
      have hne : (key == k) = false := by
        by_cases he : key = k
        · subst he; exact absurd hk hkey
        · simp [he]
      simp [sanitizeSchema, hkey, fieldsMention, hne, ih1, ih2]

/-- After `sanitizeValue`, a denylisted key is mentioned nowhere inside a
value free of sequence-in-sequence nesting. -/
theorem valueMention_sanitize_aux (k : String) (hk : k ∈ STRIP_KEYS) :
    (v : Json) → valueNoSeqInSeq v = true →
      valueMention k (sanitizeValue v) = false
  | .null, _ => rfl
  | .bool _, _ => rfl
  | .num _, _ => rfl
  | .str _, _ => rfl
  | .obj f, h => by
    have ih := fieldsMention_sanitize_aux k hk f (by simpa [valueNoSeqInSeq] using h)
    simp [sanitizeValue, valueMention, ih]
  | .arr i, h => by
    have ih := itemsMention_sanitize_aux k hk i (by simpa [valueNoSeqInSeq] using h)
    simp [sanitizeValue, valueMention, ih]

/-- After `sanitizeItems`, a denylisted key is mentioned nowhere inside an
element list whose elements are not sequences and are themselves free of
sequence-in-sequence nesting. -/
theorem itemsMention_sanitize_aux (k : String) (hk : k ∈ STRIP_KEYS) :
    (i : Items) → itemsNoSeqInSeq i = true →
      itemsMention k (sanitizeItems i) = false
  | .nil, _ => rfl
  | .cons v rest, h => by
    simp only [itemsNoSeqInSeq, Bool.and_eq_true, Bool.not_eq_true'] at h
    have ih2 := itemsMention_sanitize_aux k hk rest h.2
    cases v with
    | obj f =>
      have ih1 := fieldsMention_sanitize_aux k hk f
        (by simpa [valueNoSeqInSeq] using h.1.2)
      simp [sanitizeItems, sanitizeElem, itemsMention, valueMention, ih1, ih2]
    | null => simp [sanitizeItems, sanitizeElem, itemsMention, valueMention, ih2]
    | bool b => simp [sanitizeItems, sanitizeElem, itemsMention, valueMention, ih2]
    | num n => simp [sanitizeItems, sanitizeElem, itemsMention, valueMention, ih2]
    | str s => simp [sanitizeItems, sanitizeElem, itemsMention, valueMention, ih2]
    | arr j => exact absurd h.1.1 (by simp [isArr])

end

/-- C7: the schema sanitizer is idempotent: sanitizing an already sanitized
schema tree changes nothing. -/
theorem sanitizeSchema_idempotent (f : Fields) :
    sanitizeSchema (sanitizeSchema f) = sanitizeSchema f :=
  sanitizeSchema_idem_aux f

/-- C8: the schema sanitizer is the identity on schema trees containing no
denylisted key in any mapping node at any depth. -/
theorem sanitizeSchema_clean_identity (f : Fields) (h : fieldsClean f = true) :
    sanitizeSchema f = f :=
  sanitizeSchema_clean_id f h

/-- C8 witness: a concrete clean nested schema is returned unchanged. -/
theorem sanitizeSchema_clean_identity_witness :
    fieldsClean cleanSchema = true ∧ sanitizeSchema cleanSchema = cleanSchema :=
  ⟨rfl, sanitizeSchema_clean_identity cleanSchema rfl⟩

/-- C1 (counterexample to the claim as stated): `nestedArraySchema` carries
the denylisted key `default` inside a mapping that is an element of a
sequence nested directly in another sequence, and `sanitizeSchema` leaves
that key in place, so the output does mention it. -/
theorem sanitize_depth_counterexample :
    "default" ∈ STRIP_KEYS ∧
    fieldsMention "default" nestedArraySchema = true ∧
    fieldsMention "default" (sanitizeSchema nestedArraySchema) = true :=
  ⟨by decide, rfl, rfl⟩

/-- C1 (amended): for every schema tree in which no sequence element is
itself a sequence, the output of `sanitizeSchema` mentions a denylisted
key in no mapping node at any depth. -/
theorem sanitize_strips_denylist (f : Fields) (k : String)
    (hk : k ∈ STRIP_KEYS) (hf : fieldsNoSeqInSeq f = true) :
    fieldsMention k (sanitizeSchema f) = false :=
  fieldsMention_sanitize_aux k hk f hf

/-- C1 witness: the denylisted key `minLength` is gone from the sanitized
`boundedSchema`. -/
theorem sanitize_strips_denylist_witness :
    ("minLength" ∈ STRIP_KEYS ∧ fieldsNoSeqInSeq boundedSchema = true) ∧
    fieldsMention "minLength" (sanitizeSchema boundedSchema) = false :=
  ⟨⟨by decide, rfl⟩,
   sanitize_strips_denylist boundedSchema "minLength" (by decide) rfl⟩

/-- C9: a tool whose resolved schema is not a structural object is kept in
the output of `sanitizeTools` under its name with its schema untouched,
and `sanitizeTools` never removes any tool name. -/
theorem sanitizeTools_passthrough (tools : List (String × Tool))
    (name : String) (t : Tool) (hmem : (name, t) ∈ tools)
    (hguard : resolvedStructural t.raw = false) :
    (name, t) ∈ sanitizeTools tools ∧
      (sanitizeTools tools).map Prod.fst = tools.map Prod.fst := by
  have ht : sanitizeTool t = t := by
    rcases hr : t.raw with _ | j
    · simp [sanitizeTool, hr]
    · cases j <;> simp_all [sanitizeTool, resolvedStructural]
  refine ⟨List.mem_map.mpr ⟨(name, t), hmem, by simp [ht]⟩, ?_⟩
  simp [sanitizeTools, List.map_map, Function.comp]

/-- C9 witness: a tool with an unresolvable schema passes through. -/
theorem sanitizeTools_passthrough_witness :
    (("fetch", unresolvedTool) ∈ [("fetch", unresolvedTool)] ∧
      resolvedStructural unresolvedTool.raw = false) ∧
    (("fetch", unresolvedTool) ∈ sanitizeTools [("fetch", unresolvedTool)] ∧
      (sanitizeTools [("fetch", unresolvedTool)]).map Prod.fst =
        [("fetch", unresolvedTool)].map Prod.fst) :=
  ⟨⟨List.mem_singleton.mpr rfl, rfl⟩,
   sanitizeTools_passthrough [("fetch", unresolvedTool)] "fetch" unresolvedTool
     (List.mem_singleton.mpr rfl) rfl⟩

/-! ## Theorems: decision loop -/

/-- C4: a stub that emits a `submit_decision` tool call on the first
invocation ends the loop after exactly one invocation with
`submitted = true`, and the conversation still holds exactly the seeded
user message. -/
theorem first_attempt_submit (stub : List Message → GenResult)
    (h : hasSubmitDecision (stub [seedMessage]).steps = true) :
    (runConfigStrategy stub).invocations = 1 ∧
    (runConfigStrategy stub).submitted = true ∧
    (runConfigStrategy stub).messages = [seedMessage] := by
  refine ⟨?_, ?_, ?_⟩ <;> simp [runConfigStrategy, runAttempt, h]

/-- C4 witness: the immediately submitting stub. -/
theorem first_attempt_submit_witness :
    hasSubmitDecision (submitStub [seedMessage]).steps = true ∧
    ((runConfigStrategy submitStub).invocations = 1 ∧
      (runConfigStrategy submitStub).submitted = true ∧
      (runConfigStrategy submitStub).messages = [seedMessage]) :=
  ⟨rfl, first_attempt_submit submitStub rfl⟩

/-- C3: a stub that never emits a `submit_decision` call drives the loop
through exactly `MAX_ATTEMPTS` invocations; the final conversation is the
seed plus one assistant echo and one corrective user message per non-final
attempt — `2 * (MAX_ATTEMPTS - 1)` appended messages — and the run reports
`submitted = false` while returning normally (the embedding is a total
function). -/
theorem exhaustion_runs_all_attempts (stub : List Message → GenResult)
    (h : ∀ m, hasSubmitDecision (stub m).steps = false) :
    (runConfigStrategy stub).invocations = MAX_ATTEMPTS ∧
    (runConfigStrategy stub).submitted = false ∧
    (runConfigStrategy stub).messages =
      [seedMessage,
       ⟨.assistant, (stub [seedMessage]).text⟩, retryMessage,
       ⟨.assistant,
         (stub [seedMessage, ⟨.assistant, (stub [seedMessage]).text⟩,
           retryMessage]).text⟩, retryMessage] ∧
    (runConfigStrategy stub).messages.length = 1 + 2 * (MAX_ATTEMPTS - 1) := by
  refine ⟨?_, ?_, ?_, ?_⟩ <;>
    simp [runConfigStrategy, runAttempt, MAX_ATTEMPTS, h]

/-- C3 witness: the never-submitting stub. -/
theorem exhaustion_runs_all_attempts_witness :
    (∀ m, hasSubmitDecision (silentStub m).steps = false) ∧
    ((runConfigStrategy silentStub).invocations = MAX_ATTEMPTS ∧
      (runConfigStrategy silentStub).submitted = false ∧
      (runConfigStrategy silentStub).messages =
        [seedMessage,
         ⟨.assistant, (silentStub [seedMessage]).text⟩, retryMessage,
         ⟨.assistant,
           (silentStub [seedMessage, ⟨.assistant, (silentStub [seedMessage]).text⟩,
             retryMessage]).text⟩, retryMessage] ∧
      (runConfigStrategy silentStub).messages.length = 1 + 2 * (MAX_ATTEMPTS - 1)) :=
  ⟨fun _ => rfl, exhaustion_runs_all_attempts silentStub (fun _ => rfl)⟩

/-! ## Theorems: teardown -/

/-- When every close succeeds, the `finally` loop closes every server in
order and completes normally. -/
theorem closeServers_all_ok (closeOk : String → Bool) :
    (servers : List String) → (∀ s ∈ servers, closeOk s = true) →
      closeServers closeOk servers = (servers, .ok ())
  | [], _ => rfl
  | s :: rest, h => by
    have ih := closeServers_all_ok closeOk rest
      (fun x hx => h x (List.mem_cons_of_mem _ hx))
    simp [closeServers, h s (List.mem_cons_self _ _), ih]

/-- C2 (amended): whatever the outcome of the body of the `try` block
(normal completion, exhaustion, or a thrown invocation/connection error
after the connections were opened), the `finally` loop invokes every
successfully connected server's close exactly once — provided every close
succeeds — and the body's outcome propagates unchanged. -/
theorem teardown_closes_each_once (servers : List String)
    (body : Except String Unit) (closeOk : String → Bool)
    (h : ∀ s ∈ servers, closeOk s = true) :
    (runConfigMode servers body closeOk).1 = servers ∧
    (runConfigMode servers body closeOk).2 = body := by
  simp [runConfigMode, closeServers_all_ok closeOk servers h]

/-- C2 witness: both servers are closed exactly once even when the body
throws. -/
theorem teardown_closes_each_once_witness :
    (∀ s ∈ ["arena", "taostats"], (fun _ : String => true) s = true) ∧
    ((runConfigMode ["arena", "taostats"] (.error "invocation failed")
        (fun _ => true)).1 = ["arena", "taostats"] ∧
      (runConfigMode ["arena", "taostats"] (.error "invocation failed")
        (fun _ => true)).2 = .error "invocation failed") :=
  ⟨fun _ _ => rfl,
   teardown_closes_each_once ["arena", "taostats"] (.error "invocation failed")
     (fun _ => true) (fun _ _ => rfl)⟩

/-- C2 (counterexample to the claim as stated): with two connected servers
and a close that throws on the first, the close loop stops — the second
server's close is never attempted, refuting the best-effort part of the
claim. -/
theorem teardown_close_failure_counterexample :
    (runConfigMode ["arena", "taostats"] (.ok ()) (fun s => !(s == "arena"))).1
      = ["arena"] ∧
    "taostats" ∉
      (runConfigMode ["arena", "taostats"] (.ok ()) (fun s => !(s == "arena"))).1 :=
  ⟨rfl, by decide⟩

/-! ## Theorems: aggregator credential gate -/

/-- A name absent from the descriptor list is neither attempted nor
connected. -/
theorem connect_avoids_absent_name (env : String → Option String)
    (connect : String → List (String × Tool)) :
    (servers : List (String × McpServerConfig)) → (name : String) →
    name ∉ servers.map Prod.fst →
    name ∉ (connectMcpServers env connect servers).2 ∧
      ∀ cs ∈ (connectMcpServers env connect servers).1, cs.name ≠ name
  | [], name, _ => by simp [connectMcpServers]
  | (n, server) :: rest, name, hn => by
    simp only [List.map_cons, List.mem_cons, not_or] at hn
    have ih := connect_avoids_absent_name env connect rest name hn.2
    simp only [connectMcpServers]
    split
    · exact ih
    · refine ⟨?_, ?_⟩
      · simp only [List.mem_cons, not_or]
        exact ⟨hn.1, ih.1⟩
      · intro cs hcs
        rcases List.mem_cons.mp hcs with hc | hc
        · subst hc
          exact fun he => hn.1 he.symm
        · exact ih.2 cs hc

/-- A descriptor listing a required variable that is falsy in the
environment is skipped by `connectMcpServers`: no connection attempt is
recorded for its name and no connected server carries its name. -/
theorem gate_skips_falsy (env : String → Option String)
    (connect : String → List (String × Tool)) :
    (servers : List (String × McpServerConfig)) → (name : String) →
    (cfg : McpServerConfig) → (reqs : List String) → (v : String) →
    (servers.map Prod.fst).Nodup → (name, cfg) ∈ servers →
    cfg.requires = some reqs → v ∈ reqs → envTruthy env v = false →
    name ∉ (connectMcpServers env connect servers).2 ∧
      ∀ cs ∈ (connectMcpServers env connect servers).1, cs.name ≠ name
  | [], name, cfg, reqs, v, _, hmem, _, _, _ =>
    absurd hmem (List.not_mem_nil _)
  | (n, server) :: rest, name, cfg, reqs, v, hnd, hmem, hreq, hv, hfalsy => by
    simp only [List.map_cons, List.nodup_cons] at hnd
    rcases List.mem_cons.mp hmem with heq | hmem'
    · obtain ⟨h1, h2⟩ := Prod.mk.inj heq
      subst h1
      subst h2
      have hvmem : v ∈ reqs.filter (fun x => !envTruthy env x) :=
        List.mem_filter.mpr ⟨hv, by simp [hfalsy]⟩
      have hfil : (reqs.filter (fun x => !envTruthy env x)).isEmpty = false := by
        cases hfe : reqs.filter (fun x => !envTruthy env x) with
        | nil => rw [hfe] at hvmem; exact absurd hvmem (List.not_mem_nil v)
        | cons a as => rfl
      simp only [connectMcpServers, hreq, hfil]
      simpa using connect_avoids_absent_name env connect rest name hnd.1
    · have ih := gate_skips_falsy env connect rest name cfg reqs v hnd.2 hmem' hreq hv hfalsy
      have hnn : n ≠ name := by
        intro he
        subst he
        exact hnd.1 (List.mem_map.mpr ⟨(n, cfg), hmem', rfl⟩)
      simp only [connectMcpServers]
      split
      · exact ih
      · refine ⟨?_, ?_⟩
        · simp only [List.mem_cons, not_or]
          exact ⟨fun he => hnn he.symm, ih.1⟩
        · intro cs hcs
          rcases List.mem_cons.mp hcs with hc | hc
          · subst hc
            exact hnn
          · exact ih.2 cs hc

/-- `connectMcpServers` depends on the environment only through the
truthiness of the required variables. -/
theorem connect_env_cong (env1 env2 : String → Option String)
    (connect : String → List (String × Tool))
    (henv : ∀ x, envTruthy env1 x = envTruthy env2 x) :
    (servers : List (String × McpServerConfig)) →
      connectMcpServers env1 connect servers = connectMcpServers env2 connect servers
  | [] => rfl
  | (n, server) :: rest => by
    have ih := connect_env_cong env1 env2 connect henv rest
    simp only [connectMcpServers, henv, ih]

/-- C5: a provider whose `requires` names an environment variable that is
unset at connect time is skipped: no connection is attempted for its name
and no connected server — hence no tool — comes from it. The skip is a
normal return path of the (total) function, not an error. -/
theorem credential_gate_skips (env : String → Option String)
    (connect : String → List (String × Tool))
    (servers : List (String × McpServerConfig))
    (name : String) (cfg : McpServerConfig) (reqs : List String) (v : String)
    (hnd : (servers.map Prod.fst).Nodup) (hmem : (name, cfg) ∈ servers)
    (hreq : cfg.requires = some reqs) (hv : v ∈ reqs)
    (habs : env v = none) :
    name ∉ (connectMcpServers env connect servers).2 ∧
      ∀ cs ∈ (connectMcpServers env connect servers).1, cs.name ≠ name :=
  gate_skips_falsy env connect servers name cfg reqs v hnd hmem hreq hv
    (by simp [envTruthy, habs])

/-- C5 witness: a gated provider under an empty environment. -/
theorem credential_gate_skips_witness :
    (([("market", gatedConfig)].map Prod.fst).Nodup ∧
      ("market", gatedConfig) ∈ [("market", gatedConfig)] ∧
      gatedConfig.requires = some ["K"] ∧ "K" ∈ ["K"] ∧
      (fun _ : String => (none : Option String)) "K" = none) ∧
    ("market" ∉
        (connectMcpServers (fun _ => none) noTools [("market", gatedConfig)]).2 ∧
      ∀ cs ∈ (connectMcpServers (fun _ => none) noTools
          [("market", gatedConfig)]).1, cs.name ≠ "market") :=
  ⟨⟨List.nodup_singleton _, List.mem_singleton.mpr rfl, rfl, List.mem_singleton.mpr rfl, rfl⟩,
   credential_gate_skips (fun _ => none) noTools [("market", gatedConfig)]
     "market" gatedConfig ["K"] "K" (List.nodup_singleton _)
     (List.mem_singleton.mpr rfl) rfl (List.mem_singleton.mpr rfl) rfl⟩

/-- C10: a required environment variable set to the empty string is
treated as absent by the credential gate: the gated provider is skipped,
and the whole aggregation result is identical to running with the variable
removed from the environment. -/
theorem empty_env_var_as_unset (env : String → Option String)
    (connect : String → List (String × Tool))
    (servers : List (String × McpServerConfig))
    (name : String) (cfg : McpServerConfig) (reqs : List String) (v : String)
    (hnd : (servers.map Prod.fst).Nodup) (hmem : (name, cfg) ∈ servers)
    (hreq : cfg.requires = some reqs) (hv : v ∈ reqs)
    (hempty : env v = some "") :
    (name ∉ (connectMcpServers env connect servers).2 ∧
      ∀ cs ∈ (connectMcpServers env connect servers).1, cs.name ≠ name) ∧
    connectMcpServers env connect servers =
      connectMcpServers (fun x => if x == v then none else env x) connect servers := by
  have hfalsy : envTruthy env v = false := by simp [envTruthy, hempty]
  refine ⟨gate_skips_falsy env connect servers name cfg reqs v hnd hmem hreq hv hfalsy, ?_⟩
  refine connect_env_cong env _ connect (fun x => ?_) servers
  by_cases hx : x = v
  · subst hx
    simp [envTruthy, hempty]
  · simp [envTruthy, hx]

/-- C10 witness: the variable K set to the empty string. -/
theorem empty_env_var_as_unset_witness :
    (([("market", gatedConfig)].map Prod.fst).Nodup ∧
      ("market", gatedConfig) ∈ [("market", gatedConfig)] ∧
      gatedConfig.requires = some ["K"] ∧ "K" ∈ ["K"] ∧
      emptyKEnv "K" = some "") ∧
    (("market" ∉
        (connectMcpServers emptyKEnv noTools [("market", gatedConfig)]).2 ∧
      ∀ cs ∈ (connectMcpServers emptyKEnv noTools
          [("market", gatedConfig)]).1, cs.name ≠ "market") ∧
    connectMcpServers emptyKEnv noTools [("market", gatedConfig)] =
      connectMcpServers (fun x => if x == "K" then none else emptyKEnv x) noTools
        [("market", gatedConfig)]) :=
  ⟨⟨List.nodup_singleton _, List.mem_singleton.mpr rfl, rfl, List.mem_singleton.mpr rfl, rfl⟩,
   empty_env_var_as_unset emptyKEnv noTools [("market", gatedConfig)]
     "market" gatedConfig ["K"] "K" (List.nodup_singleton _)
     (List.mem_singleton.mpr rfl) rfl (List.mem_singleton.mpr rfl) rfl⟩

/-! ## Theorems: tool merge -/

/-- Lookup at the head key of a JS object. -/
theorem lookupTool_cons_self (k : String) (v : Tool) (m : List (String × Tool)) :
    lookupTool ((k, v) :: m) k = some v := by
  simp [lookupTool]

/-- Lookup skips a head entry with a different key. -/
theorem lookupTool_cons_ne (k1 k : String) (v1 : Tool) (m : List (String × Tool))
    (h : ¬ k1 = k) :
    lookupTool ((k1, v1) :: m) k = lookupTool m k := by
  simp [lookupTool, List.find?_cons, h]

/-- In-place update of an existing key: lookup at that key sees the new
value. -/
theorem lookup_map_update_self (k : String) (v : Tool) :
    (m : List (String × Tool)) → m.any (fun p => p.1 == k) = true →
      lookupTool (m.map fun p => if p.1 == k then (k, v) else p) k = some v
  | [], h => by simp at h
  | (k1, v1) :: rest, h => by
    by_cases hk : k1 = k
    · have hmap : ((k1, v1) :: rest).map (fun p => if p.1 == k then (k, v) else p)
          = (k, v) :: rest.map (fun p => if p.1 == k then (k, v) else p) := by
        simp [hk]
      rw [hmap, lookupTool_cons_self]
    · have hmap : ((k1, v1) :: rest).map (fun p => if p.1 == k then (k, v) else p)
          = (k1, v1) :: rest.map (fun p => if p.1 == k then (k, v) else p) := by
        simp [hk]
      have hrest : rest.any (fun p => p.1 == k) = true := by
        simpa [List.any_cons, hk] using h
      rw [hmap, lookupTool_cons_ne k1 k v1 _ hk]
      exact lookup_map_update_self k v rest hrest

/-- Appending a fresh key: lookup at that key finds the appended value
when no earlier entry has it. -/
theorem lookup_append_self (k : String) (v : Tool) :
    (m : List (String × Tool)) → m.any (fun p => p.1 == k) = false →
      lookupTool (m ++ [(k, v)]) k = some v
  | [], _ => by
    show lookupTool [(k, v)] k = some v
    rw [lookupTool_cons_self]
  | (k1, v1) :: rest, h => by
    have hk : ¬ k1 = k := by
      intro he
      simp [List.any_cons, he] at h
    have hrest : rest.any (fun p => p.1 == k) = false := by
      simpa [List.any_cons, hk] using h
    rw [List.cons_append, lookupTool_cons_ne k1 k v1 _ hk]
    exact lookup_append_self k v rest hrest

/-- `insertEntry` makes the written key map to the written value. -/
theorem insertEntry_lookup_self (k : String) (v : Tool)
    (m : List (String × Tool)) :
    lookupTool (insertEntry m k v) k = some v := by
  cases h : m.any (fun p => p.1 == k) with
  | true =>
    unfold insertEntry
    rw [if_pos h]
    exact lookup_map_update_self k v m h
  | false =>
    unfold insertEntry
    rw [if_neg (by simp [h])]
    exact lookup_append_self k v m h

/-- In-place update of key `k` leaves lookups of other keys unchanged. -/
theorem lookup_map_update_other (k kk : String) (v : Tool) (hne : ¬ k = kk) :
    (m : List (String × Tool)) →
      lookupTool (m.map fun p => if p.1 == k then (k, v) else p) kk = lookupTool m kk
  | [] => rfl
  | (k1, v1) :: rest => by
    have ih := lookup_map_update_other k kk v hne rest
    by_cases h1 : k1 = k
    · have hmap : ((k1, v1) :: rest).map (fun p => if p.1 == k then (k, v) else p)
          = (k, v) :: rest.map (fun p => if p.1 == k then (k, v) else p) := by
        simp [h1]
      have h1k : ¬ k1 = kk := by rw [h1]; exact hne
      rw [hmap, lookupTool_cons_ne k kk v _ hne,
        lookupTool_cons_ne k1 kk v1 rest h1k, ih]
    · have hmap : ((k1, v1) :: rest).map (fun p => if p.1 == k then (k, v) else p)
          = (k1, v1) :: rest.map (fun p => if p.1 == k then (k, v) else p) := by
        simp [h1]
      by_cases h2 : k1 = kk
      · rw [hmap, h2, lookupTool_cons_self, lookupTool_cons_self]
      · rw [hmap, lookupTool_cons_ne k1 kk v1 _ h2,
          lookupTool_cons_ne k1 kk v1 rest h2, ih]

/-- Appending an entry for key `k` leaves lookups of other keys
unchanged. -/
theorem lookup_append_other (k kk : String) (v : Tool) (hne : ¬ k = kk) :
    (m : List (String × Tool)) →
      lookupTool (m ++ [(k, v)]) kk = lookupTool m kk
  | [] => by
    show lookupTool [(k, v)] kk = lookupTool [] kk
    rw [lookupTool_cons_ne k kk v [] hne]
  | (k1, v1) :: rest => by
    have ih := lookup_append_other k kk v hne rest
    by_cases h2 : k1 = kk
    · rw [List.cons_append, h2, lookupTool_cons_self, lookupTool_cons_self]
    · rw [List.cons_append, lookupTool_cons_ne k1 kk v1 _ h2,
        lookupTool_cons_ne k1 kk v1 rest h2, ih]

/-- `insertEntry` at key `k` leaves lookups of other keys unchanged. -/
theorem insertEntry_lookup_other (k kk : String) (v : Tool) (hne : ¬ k = kk)
    (m : List (String × Tool)) :
    lookupTool (insertEntry m k v) kk = lookupTool m kk := by
  cases h : m.any (fun p => p.1 == k) with
  | true =>
    unfold insertEntry
    rw [if_pos h]
    exact lookup_map_update_other k kk v hne m
  | false =>
    unfold insertEntry
    rw [if_neg (by simp [h])]
    exact lookup_append_other k kk v hne m

/-- `Object.assign` from a source without key `kk` preserves lookups of
`kk`. -/
theorem objectAssign_lookup_not_mem (kk : String) :
    (source : List (String × Tool)) → (target : List (String × Tool)) →
    (∀ p ∈ source, ¬ p.1 = kk) →
      lookupTool (objectAssign target source) kk = lookupTool target kk
  | [], _, _ => rfl
  | (k1, v1) :: rest, target, h => by
    have ih := objectAssign_lookup_not_mem kk rest (insertEntry target k1 v1)
      (fun p hp => h p (List.mem_cons_of_mem _ hp))
    have h1 : ¬ k1 = kk := h (k1, v1) (List.mem_cons_self _ _)
    show lookupTool (objectAssign (insertEntry target k1 v1) rest) kk = _
    rw [ih, insertEntry_lookup_other k1 kk v1 h1 target]

/-- `Object.assign` from a duplicate-free source containing key `t` makes
the result map `t` to the source's value. -/
theorem objectAssign_lookup_mem (t : String) (b : Tool) :
    (source : List (String × Tool)) → (target : List (String × Tool)) →
    (source.map Prod.fst).Nodup → lookupTool source t = some b →
      lookupTool (objectAssign target source) t = some b
  | [], _, _, hl => by simp [lookupTool] at hl
  | (k1, v1) :: rest, target, hnd, hl => by
    simp only [List.map_cons, List.nodup_cons] at hnd
    by_cases h1 : k1 = t
    · subst h1
      rw [lookupTool_cons_self] at hl
      obtain rfl : v1 = b := Option.some.inj hl
      have hrest : ∀ p ∈ rest, ¬ p.1 = k1 := fun p hp hpt =>
        hnd.1 (List.mem_map.mpr ⟨p, hp, hpt⟩)
      show lookupTool (objectAssign (insertEntry target k1 v1) rest) k1 = some v1
      rw [objectAssign_lookup_not_mem k1 rest (insertEntry target k1 v1) hrest,
        insertEntry_lookup_self k1 v1 target]
    · rw [lookupTool_cons_ne k1 t v1 rest h1] at hl
      exact objectAssign_lookup_mem t b rest (insertEntry target k1 v1) hnd.2 hl

/-- C6: when providers A then B are connected in that order and each
exposes a tool named `t`, the merged tool set maps `t` to B's tool; the
merge is a total function, so the name collision raises no error. -/
theorem merge_last_write_wins (nA nB : String)
    (tsA tsB : List (String × Tool)) (t : String) (a b : Tool)
    (_hA : lookupTool tsA t = some a)
    (hndB : (tsB.map Prod.fst).Nodup)
    (hB : lookupTool tsB t = some b) :
    lookupTool (mergeServerTools [⟨nA, tsA⟩, ⟨nB, tsB⟩]) t = some b := by
  show lookupTool (objectAssign (objectAssign [] tsA) tsB) t = some b
  exact objectAssign_lookup_mem t b tsB (objectAssign [] tsA) hndB hB

/-- C6 witness: two concrete single-tool servers colliding on `t`. -/
theorem merge_last_write_wins_witness :
    (lookupTool [("t", toolA)] "t" = some toolA ∧
      ([("t", toolB)].map Prod.fst).Nodup ∧
      lookupTool [("t", toolB)] "t" = some toolB) ∧
    lookupTool (mergeServerTools [⟨"A", [("t", toolA)]⟩, ⟨"B", [("t", toolB)]⟩]) "t"
      = some toolB :=
  ⟨⟨rfl, List.nodup_singleton _, rfl⟩,
   merge_last_write_wins "A" "B" [("t", toolA)] [("t", toolB)] "t" toolA toolB
     rfl (List.nodup_singleton _) rfl⟩
